import Mathlib

/-!
Verification of the aggregation, ranking and view-state logic of a
scrollytelling movie-visualization front-end.

The TypeScript/Svelte sources are shallowly embedded:

* `TMovie` models one dataset row (only the fields the claims touch:
  the multi-valued genre list and the year extracted from the date).
* JavaScript's `d3.rollup(list, v => v.length, d => d)` returns one entry
  per distinct key, keyed in first-appearance order, with group sizes as
  values; it is embedded as `rollupCounts`.
* JavaScript's stable `Array.prototype.sort` with the comparator
  `(a, b) => b.count - a.count` is embedded as an insertion sort with the
  total relation `b.2 ≤ a.2` (stable: an element is inserted before the
  first element it ties with that originally came later).
* Numbers produced by `Date.getFullYear()` are embedded as `Int`;
  the JavaScript falsiness guard `!year` is `year = 0`.
-/

namespace MovieVis

/-- One row of the loaded dataset (`src/routes/+page.svelte` builds
`{ genres: row.genres.split(","), year: new Date(row.year), ... }`).
Only the genre list and the year matter to the aggregation logic. -/
structure TMovie where
  title : String := ""
  genres : List String
  year : Int
deriving Repr, DecidableEq

/-- Helper for `dedupFirst`: walks the list keeping the keys already seen,
mirroring how a JavaScript `Map` adds a key only on its first occurrence. -/
def dedupFirstAux {α : Type} [DecidableEq α] : List α → List α → List α
  | [], _ => []
  | x :: xs, seen =>
    if x ∈ seen then dedupFirstAux xs seen else x :: dedupFirstAux xs (x :: seen)

/-- First-appearance deduplication: the key order of a JavaScript
`Map`/`InternMap` built by insertion, as produced by `d3.rollup` and by
`new Set()` filled with `forEach`/`add`. -/
def dedupFirst {α : Type} [DecidableEq α] (l : List α) : List α :=
  dedupFirstAux l []

theorem mem_dedupFirstAux {α : Type} [DecidableEq α] (a : α) :
    ∀ (l seen : List α), a ∈ dedupFirstAux l seen ↔ a ∈ l ∧ a ∉ seen := by
  intro l
  induction l with
  | nil => intro seen; simp [dedupFirstAux]
  | cons x xs ih =>
    intro seen
    by_cases hx : x ∈ seen
    · rw [dedupFirstAux, if_pos hx, ih]
      constructor
      · rintro ⟨h1, h2⟩; exact ⟨.tail _ h1, h2⟩
      · rintro ⟨h1, h2⟩
        rcases List.mem_cons.1 h1 with rfl | h1
        · exact absurd hx h2
        · exact ⟨h1, h2⟩
    · rw [dedupFirstAux, if_neg hx]
      simp only [List.mem_cons, ih]
      by_cases hax : a = x <;> simp [hax, hx]

theorem nodup_dedupFirstAux {α : Type} [DecidableEq α] :
    ∀ (l seen : List α), (dedupFirstAux l seen).Nodup := by
  intro l
  induction l with
  | nil => intro seen; simp [dedupFirstAux]
  | cons x xs ih =>
    intro seen
    by_cases hx : x ∈ seen
    · rw [dedupFirstAux, if_pos hx]; exact ih seen
    · rw [dedupFirstAux, if_neg hx]
      refine List.nodup_cons.2 ⟨?_, ih _⟩
      intro hmem
      exact ((mem_dedupFirstAux x xs _).1 hmem).2 (.head _)

/-- Embedding of `d3.rollup(l, v => v.length, d => d)` followed by `Array.from`:
one `(key, groupSize)` entry per distinct key, in first-appearance order. -/
def rollupCounts {α : Type} [DecidableEq α] (l : List α) : List (α × Nat) :=
  (dedupFirst l).map (fun g => (g, l.count g))

/-- JavaScript's stable `sort((a, b) => b.count - a.count)`:
non-increasing by count, ties kept in original order. -/
def sortByCountDesc {α : Type} (l : List (α × Nat)) : List (α × Nat) :=
  List.insertionSort (fun a b => b.2 ≤ a.2) l

/-- Embedding of `aggregateYear` from `src/lib/Scroll.svelte`: tally of genre labels over
the records whose year equals the target, sorted by descending count.
`!movies.length || !year` is the JavaScript guard (0 is falsy). -/
def aggregateYear (movies : List TMovie) (year : Int) : List (String × Nat) :=
  if movies.isEmpty ∨ year = 0 then []
  else sortByCountDesc (rollupCounts
    ((movies.filter (fun m => m.year = year)).flatMap (fun m => m.genres)))

/-- Embedding of `aggregateYearRange` from `src/lib/Scroll.svelte`: same tally over the
records whose year lies in `[endYear − 10, endYear]`. -/
def aggregateYearRange (movies : List TMovie) (endYear : Int) : List (String × Nat) :=
  if movies.isEmpty ∨ endYear = 0 then []
  else sortByCountDesc (rollupCounts
    ((movies.filter (fun m => endYear - 10 ≤ m.year ∧ m.year ≤ endYear)).flatMap
      (fun m => m.genres)))

/-! ### Basic lemmas about the counting pipeline -/

theorem mem_dedupFirst {α : Type} [DecidableEq α] (l : List α) (a : α) :
    a ∈ dedupFirst l ↔ a ∈ l := by
  rw [dedupFirst, mem_dedupFirstAux]
  simp

theorem nodup_dedupFirst {α : Type} [DecidableEq α] (l : List α) :
    (dedupFirst l).Nodup :=
  nodup_dedupFirstAux l []

theorem mem_rollupCounts {α : Type} [DecidableEq α] (l : List α) (a : α) (c : Nat) :
    (a, c) ∈ rollupCounts l ↔ a ∈ l ∧ c = l.count a := by
  simp only [rollupCounts, List.mem_map]
  constructor
  · rintro ⟨x, hx, heq⟩
    obtain ⟨rfl, rfl⟩ : x = a ∧ l.count x = c := by
      constructor
      · exact congrArg Prod.fst heq
      · exact congrArg Prod.snd heq
    exact ⟨(mem_dedupFirst _ _).1 hx, rfl⟩
  · rintro ⟨hmem, rfl⟩
    exact ⟨a, (mem_dedupFirst _ _).2 hmem, rfl⟩

theorem rollupCounts_map_fst {α : Type} [DecidableEq α] (l : List α) :
    (rollupCounts l).map Prod.fst = dedupFirst l := by
  simp [rollupCounts, List.map_map, Function.comp_def]

theorem sortByCountDesc_perm {α : Type} (l : List (α × Nat)) :
    (sortByCountDesc l).Perm l :=
  List.perm_insertionSort _ l

theorem sortByCountDesc_sorted {α : Type} (l : List (α × Nat)) :
    (sortByCountDesc l).Pairwise (fun a b => b.2 ≤ a.2) := by
  have : List.Sorted (fun a b : α × Nat => b.2 ≤ a.2) (sortByCountDesc l) := by
    refine @List.sorted_insertionSort _ _ _ ⟨fun a b => le_total b.2 a.2⟩
      ⟨fun a b c h1 h2 => le_trans h2 h1⟩ l
  exact this

theorem mem_sortByCountDesc {α : Type} (l : List (α × Nat)) (e : α × Nat) :
    e ∈ sortByCountDesc l ↔ e ∈ l :=
  (sortByCountDesc_perm l).mem_iff

theorem sum_counts_dedupFirst {α : Type} [DecidableEq α] (l : List α) :
    ((dedupFirst l).map (fun a => l.count a)).sum = l.length := by
  have hperm : (dedupFirst l).Perm l.dedup :=
    (List.perm_ext_iff_of_nodup (nodup_dedupFirst l) l.nodup_dedup).2
      (fun a => by rw [mem_dedupFirst, List.mem_dedup])
  rw [(hperm.map (fun a => l.count a)).sum_eq]
  exact List.sum_map_count_dedup_eq_length l

theorem sublist_flatMap_of_sublist {α β : Type} (f : α → List β) {l₁ l₂ : List α}
    (h : l₁.Sublist l₂) : (l₁.flatMap f).Sublist (l₂.flatMap f) := by
  induction h with
  | slnil => simp
  | cons a h ih =>
    simpa [List.flatMap_cons] using ih.trans (List.sublist_append_right _ _)
  | cons₂ a h ih =>
    simpa [List.flatMap_cons] using ih.append_left (f a)

/-- The flattened genre labels of the records matching one target year
(the reference aggregation the spec describes). -/
def yearLabels (movies : List TMovie) (year : Int) : List String :=
  (movies.filter (fun m => m.year = year)).flatMap (fun m => m.genres)

/-- The flattened genre labels of the records in the trailing ten-year
window `[endYear − 10, endYear]`. -/
def windowLabels (movies : List TMovie) (endYear : Int) : List String :=
  (movies.filter (fun m => endYear - 10 ≤ m.year ∧ m.year ≤ endYear)).flatMap
    (fun m => m.genres)

theorem aggregateYear_eq (movies : List TMovie) (year : Int) (h : year ≠ 0) :
    aggregateYear movies year = sortByCountDesc (rollupCounts (yearLabels movies year)) := by
  by_cases hm : movies.isEmpty
  · have : movies = [] := List.isEmpty_iff.1 hm
    subst this
    simp [aggregateYear, yearLabels, rollupCounts, dedupFirst, sortByCountDesc]
  · simp [aggregateYear, hm, h, yearLabels]

theorem aggregateYearRange_eq (movies : List TMovie) (year : Int) (h : year ≠ 0) :
    aggregateYearRange movies year =
      sortByCountDesc (rollupCounts (windowLabels movies year)) := by
  by_cases hm : movies.isEmpty
  · have : movies = [] := List.isEmpty_iff.1 hm
    subst this
    simp [aggregateYearRange, windowLabels, rollupCounts, dedupFirst, sortByCountDesc]
  · simp [aggregateYearRange, hm, h, windowLabels]

theorem yearLabels_sublist_windowLabels (movies : List TMovie) (year : Int) :
    (yearLabels movies year).Sublist (windowLabels movies year) := by
  have hfil : movies.filter (fun m => m.year = year) =
      (movies.filter (fun m => year - 10 ≤ m.year ∧ m.year ≤ year)).filter
        (fun m => m.year = year) := by
    rw [List.filter_filter]
    refine (List.filter_congr ?_)
    intro m _
    by_cases h : m.year = year
    · have h1 : year - 10 ≤ m.year ∧ m.year ≤ year := by omega
      simp [h, h1]
    · simp [h]
  unfold yearLabels windowLabels
  rw [hfil]
  exact sublist_flatMap_of_sublist _ (List.filter_sublist _)

theorem mem_aggregateYear (movies : List TMovie) (year : Int) (h : year ≠ 0)
    (g : String) (c : Nat) :
    (g, c) ∈ aggregateYear movies year ↔
      g ∈ yearLabels movies year ∧ c = (yearLabels movies year).count g := by
  rw [aggregateYear_eq movies year h, mem_sortByCountDesc, mem_rollupCounts]

theorem mem_aggregateYearRange (movies : List TMovie) (year : Int) (h : year ≠ 0)
    (g : String) (c : Nat) :
    (g, c) ∈ aggregateYearRange movies year ↔
      g ∈ windowLabels movies year ∧ c = (windowLabels movies year).count g := by
  rw [aggregateYearRange_eq movies year h, mem_sortByCountDesc, mem_rollupCounts]

/-- The two-record example from the spec's scenario. -/
def exampleTwo : List TMovie :=
  [{ genres := ["Action", "Comedy"], year := 2000 },
   { genres := ["Action"], year := 2000 }]

/-- A record set with a genuine year-0 record. -/
def exampleYearZero : List TMovie := [{ genres := ["Action"], year := 0 }]

/-- C10 counterexample: the claim's clause that a genuine year-0 record can
never be aggregated through the public interface is false. At the nonzero
target year 5 the trailing window is `[−5, 5]`, so the year-0 record of
`exampleYearZero` is counted: the window tally is `[("Action", 1)]`, not
empty. -/
theorem c10_year_zero_aggregated_counterexample :
    aggregateYearRange exampleYearZero 5 = [("Action", 1)] ∧
    ¬ aggregateYearRange exampleYearZero 5 = [] := by
  constructor <;> decide

/-- C10 (amended): the target-year argument 0 is the unset sentinel — both
aggregation functions return the empty tally at target year 0, for every
record set — but the sentinel applies only to the target argument: a
genuine year-0 record is still aggregated by the trailing-window tally at
nonzero target years whose window `[target − 10, target]` contains 0, as
at target year 5. -/
theorem c10_year_zero_sentinel (movies : List TMovie) :
    (aggregateYear movies 0 = [] ∧ aggregateYearRange movies 0 = []) ∧
    aggregateYearRange exampleYearZero 5 = [("Action", 1)] := by
  refine ⟨⟨?_, ?_⟩, ?_⟩
  · simp [aggregateYear]
  · simp [aggregateYearRange]
  · decide

/-- C5 counterexample: at target year 0 the claim's reference disagrees with
the code. `exampleYearZero` has one record at year 0 carrying one label, so
the reference tally would be `[("Action", 1)]` with counts summing to 1,
but `aggregateYear` returns the empty tally (summing to 0). -/
theorem c5_year_zero_counterexample :
    ¬ (((aggregateYear exampleYearZero 0).map Prod.snd).sum =
        (yearLabels exampleYearZero 0).length) := by
  decide

/-- C5 (amended to nonzero target years): for every record set and every
nonzero target year, the single-year tally is sorted non-increasingly by
count, has one entry per distinct category, its entries are exactly the
categories of the matching records with their occurrence counts, and the
counts sum to the total number of labels across matching records; and on
the spec's two-record example the tally for 2000 is
`[("Action", 2), ("Comedy", 1)]`. -/
theorem c5_single_year_tally (movies : List TMovie) (year : Int) (h : year ≠ 0) :
    ((aggregateYear movies year).Pairwise (fun a b => b.2 ≤ a.2) ∧
     ((aggregateYear movies year).map Prod.fst).Nodup ∧
     (∀ g c, (g, c) ∈ aggregateYear movies year ↔
        g ∈ yearLabels movies year ∧ c = (yearLabels movies year).count g) ∧
     ((aggregateYear movies year).map Prod.snd).sum = (yearLabels movies year).length) ∧
    aggregateYear exampleTwo 2000 = [("Action", 2), ("Comedy", 1)] := by
  refine ⟨⟨?_, ?_, ?_, ?_⟩, ?_⟩
  · rw [aggregateYear_eq movies year h]
    exact sortByCountDesc_sorted _
  · rw [aggregateYear_eq movies year h]
    have hperm : ((sortByCountDesc (rollupCounts (yearLabels movies year))).map
        Prod.fst).Perm ((rollupCounts (yearLabels movies year)).map Prod.fst) :=
      (sortByCountDesc_perm _).map _
    rw [List.Perm.nodup_iff hperm, rollupCounts_map_fst]
    exact nodup_dedupFirst _
  · exact mem_aggregateYear movies year h
  · rw [aggregateYear_eq movies year h]
    have hperm : ((sortByCountDesc (rollupCounts (yearLabels movies year))).map
        Prod.snd).Perm ((rollupCounts (yearLabels movies year)).map Prod.snd) :=
      (sortByCountDesc_perm _).map _
    rw [hperm.sum_eq]
    have : (rollupCounts (yearLabels movies year)).map Prod.snd =
        (dedupFirst (yearLabels movies year)).map
          (fun a => (yearLabels movies year).count a) := by
      simp [rollupCounts, List.map_map, Function.comp_def]
    rw [this, sum_counts_dedupFirst]
  · decide

/-- C5 witness: the amended statement instantiated at the spec's two-record
example and target year 2000. -/
theorem c5_single_year_tally_witness :
    ((2000 : Int) ≠ 0) ∧
    (((aggregateYear exampleTwo 2000).map Prod.snd).sum =
        (yearLabels exampleTwo 2000).length ∧
     aggregateYear exampleTwo 2000 = [("Action", 2), ("Comedy", 1)]) := by
  refine ⟨by decide, ?_, ?_⟩
  · exact (c5_single_year_tally exampleTwo 2000 (by decide)).1.2.2.2
  · exact (c5_single_year_tally exampleTwo 2000 (by decide)).2

/-- C2: every entry of the single-year tally is dominated by an entry of the
trailing-window tally ending at the same year, for the same category. -/
theorem c2_window_dominates_year (movies : List TMovie) (year : Int)
    (g : String) (c : Nat) (hmem : (g, c) ∈ aggregateYear movies year) :
    ∃ c', c ≤ c' ∧ (g, c') ∈ aggregateYearRange movies year := by
  by_cases h : year = 0
  · subst h
    simp [aggregateYear] at hmem
  · obtain ⟨hg, rfl⟩ := (mem_aggregateYear movies year h g c).1 hmem
    refine ⟨(windowLabels movies year).count g, ?_, ?_⟩
    · exact (yearLabels_sublist_windowLabels movies year).count_le g
    · refine (mem_aggregateYearRange movies year h g _).2 ⟨?_, rfl⟩
      exact (yearLabels_sublist_windowLabels movies year).mem hg

/-- C2 witness: on the two-record example, the entry `("Action", 2)` of the
year-2000 tally is dominated in the window tally ending at 2000. -/
theorem c2_window_dominates_year_witness :
    ("Action", 2) ∈ aggregateYear exampleTwo 2000 ∧
    ∃ c', 2 ≤ c' ∧ ("Action", c') ∈ aggregateYearRange exampleTwo 2000 :=
  ⟨by decide, c2_window_dominates_year exampleTwo 2000 "Action" 2 (by decide)⟩

/-! ### Heatmap co-occurrence matrix (`GenreHeatmap.svelte`) -/

/-- Lexicographic comparison of character lists, modelling JavaScript's
default string comparator used by `Array.prototype.sort()` on genre names. -/
def charListLe : List Char → List Char → Bool
  | [], _ => true
  | _ :: _, [] => false
  | a :: as, b :: bs => if a = b then charListLe as bs else decide (a < b)

/-- The heatmap's genre axis: distinct genres (`new Set` in first-appearance
order) sorted alphabetically (`Array.from(...).sort()`). -/
def heatGenres (movies : List TMovie) : List String :=
  List.insertionSort (fun a b => charListLe a.data b.data = true)
    (dedupFirst (movies.flatMap (fun m => m.genres)))

/-- Embedding of `genreTotals[g]`: total occurrences of genre `g` across all records. -/
def genreTotal (movies : List TMovie) (g : String) : Nat :=
  (movies.flatMap (fun m => m.genres)).count g

/-- The ordered index pairs `(gs[i], gs[j])` with `i < j` of one record's
genre list: exactly the pairs visited by `coMatrix`'s double loop. -/
def ordPairs : List String → List (String × String)
  | [] => []
  | x :: xs => xs.map (fun y => (x, y)) ++ ordPairs xs

/-- Number of increments the double loop applies to cell `(g, h)`: each
visited pair `(g1, g2)` runs `matrix[g1][g2]++` and `matrix[g2][g1]++`,
contributing to cell `(g, h)` once if the pair is `(g, h)`, once if it is
`(h, g)` — hence twice when `g = h` and the pair is `(g, g)`. -/
def pairIncrements (movies : List TMovie) (g h : String) : Nat :=
  ((movies.flatMap (fun m => ordPairs m.genres)).map
    (fun p => (if p = (g, h) then 1 else 0) + (if p = (h, g) then 1 else 0))).sum

/-- The co-occurrence matrix of `GenreHeatmap.svelte` as a function of its
two genre keys. The object is keyed exactly by `heatGenres`; a diagonal
cell is preset to the genre total before the double loop adds its
increments. -/
def coMatrix (movies : List TMovie) (g h : String) : Nat :=
  if g ∈ heatGenres movies ∧ h ∈ heatGenres movies then
    (if g = h then genreTotal movies g else 0) + pairIncrements movies g h
  else 0

theorem pairIncrements_comm (movies : List TMovie) (g h : String) :
    pairIncrements movies g h = pairIncrements movies h g := by
  unfold pairIncrements
  congr 1
  congr 1
  funext p
  exact Nat.add_comm _ _

/-- C4: the heatmap co-occurrence matrix is symmetric in its two genre
arguments, for every pair of categories appearing in the record set. -/
theorem c4_heatmap_symmetric (movies : List TMovie) (g h : String)
    (hg : g ∈ heatGenres movies) (hh : h ∈ heatGenres movies) :
    coMatrix movies g h = coMatrix movies h g := by
  have e1 : coMatrix movies g h =
      (if g = h then genreTotal movies g else 0) + pairIncrements movies g h := by
    unfold coMatrix
    exact if_pos ⟨hg, hh⟩
  have e2 : coMatrix movies h g =
      (if h = g then genreTotal movies h else 0) + pairIncrements movies h g := by
    unfold coMatrix
    exact if_pos ⟨hh, hg⟩
  rw [e1, e2, pairIncrements_comm]
  by_cases hgh : g = h
  · subst hgh; rfl
  · rw [if_neg hgh, if_neg (Ne.symm hgh)]

/-- C4 witness: symmetry at the concrete pair (Action, Comedy) of the
two-record example. -/
theorem c4_heatmap_symmetric_witness :
    "Action" ∈ heatGenres exampleTwo ∧ "Comedy" ∈ heatGenres exampleTwo ∧
    coMatrix exampleTwo "Action" "Comedy" = coMatrix exampleTwo "Comedy" "Action" :=
  ⟨by decide, by decide,
    c4_heatmap_symmetric exampleTwo "Action" "Comedy" (by decide) (by decide)⟩

theorem ordPairs_ne (gs : List String) (hnd : gs.Nodup) :
    ∀ p ∈ ordPairs gs, p.1 ≠ p.2 := by
  induction gs with
  | nil => intro p hp; simp [ordPairs] at hp
  | cons x xs ih =>
    intro p hp
    rcases List.nodup_cons.1 hnd with ⟨hx, hnd'⟩
    rcases List.mem_append.1 hp with hp | hp
    · obtain ⟨y, hy, rfl⟩ := List.mem_map.1 hp
      intro hxy
      have hxy' : x = y := hxy
      apply hx
      rw [hxy']
      exact hy
    · exact ih hnd' p hp

theorem sum_indicator_count {α : Type} [DecidableEq α] (l : List α) (a : α) :
    (l.map (fun y => if y = a then (1 : Nat) else 0)).sum = l.count a := by
  induction l with
  | nil => simp
  | cons x xs ih =>
    by_cases hx : x = a <;>
      simp [List.count_cons, hx, ih, Nat.add_comm]

theorem count_nodup_ite {α : Type} [DecidableEq α] (l : List α) (a : α)
    (hnd : l.Nodup) : l.count a = if a ∈ l then 1 else 0 := by
  by_cases h : a ∈ l
  · rw [if_pos h]
    exact List.count_eq_one_of_mem hnd h
  · rw [if_neg h]
    exact List.count_eq_zero_of_not_mem h

theorem sum_map_add_split {α : Type} (l : List α) (f k : α → Nat) :
    (l.map (fun x => f x + k x)).sum = (l.map f).sum + (l.map k).sum := by
  induction l with
  | nil => simp
  | cons x xs ih => simp [ih]; omega

theorem sum_pair_indicator (x : String) (xs : List String) (g h : String) :
    (xs.map (fun y => if (x, y) = (g, h) then (1 : Nat) else 0)).sum =
      if x = g then xs.count h else 0 := by
  by_cases e : x = g
  · subst e
    rw [if_pos rfl, ← sum_indicator_count xs h]
    refine congrArg List.sum (List.map_congr_left ?_)
    intro y _
    simp [Prod.ext_iff]
  · rw [if_neg e]
    have hzero : (xs.map (fun y => if (x, y) = (g, h) then (1 : Nat) else 0)) =
        xs.map (fun _ => 0) := by
      refine List.map_congr_left ?_
      intro y _
      simp [Prod.ext_iff, e]
    rw [hzero]
    simp

/-- The fixed-first-component slice of the pair-indicator sum, reduced to
occurrence counts. -/
theorem sum_pairfun (x : String) (xs : List String) (g h : String) :
    (xs.map (fun y => (if (x, y) = (g, h) then (1 : Nat) else 0) +
        (if (x, y) = (h, g) then 1 else 0))).sum =
      (if x = g then xs.count h else 0) + (if x = h then xs.count g else 0) := by
  rw [sum_map_add_split, sum_pair_indicator, sum_pair_indicator]

/-- One record's contribution to an off-diagonal cell: with a
duplicate-free genre list it is 1 when the record carries both genres
and 0 otherwise. -/
theorem ordPairs_sum_offdiag (g h : String) (hgh : g ≠ h) (gs : List String)
    (hnd : gs.Nodup) :
    ((ordPairs gs).map
      (fun p => (if p = (g, h) then (1 : Nat) else 0) +
                (if p = (h, g) then 1 else 0))).sum =
      if g ∈ gs ∧ h ∈ gs then 1 else 0 := by
  induction gs with
  | nil => simp [ordPairs]
  | cons x xs ih =>
    rcases List.nodup_cons.1 hnd with ⟨hx, hnd'⟩
    rw [ordPairs, List.map_append, List.sum_append, List.map_map, ih hnd']
    have hcmp : (xs.map ((fun p => (if p = (g, h) then (1 : Nat) else 0) +
        (if p = (h, g) then 1 else 0)) ∘ (fun y => (x, y)))).sum =
        (if x = g then xs.count h else 0) + (if x = h then xs.count g else 0) := by
      rw [← sum_pairfun x xs g h]
      rfl
    rw [hcmp]
    by_cases hxg : x = g
    · subst hxg
      rw [count_nodup_ite xs h hnd']
      have hhx : ¬ h = x := fun e => hgh e.symm
      by_cases hh : h ∈ xs <;> simp [hh, hhx, hgh, hx]
    · by_cases hxh : x = h
      · subst hxh
        rw [count_nodup_ite xs g hnd']
        have hgx : ¬ g = x := fun e => hxg e.symm
        by_cases hg' : g ∈ xs <;> simp [hg', hgx, hxg, hx]
      · have hgx : ¬ g = x := fun e => hxg e.symm
        have hhx : ¬ h = x := fun e => hxh e.symm
        simp [hxg, hxh, List.mem_cons, hgx, hhx]

theorem sum_map_flatMap {α β γ : Type} (l : List α) (f : α → List β) (k : β → γ)
    [AddCommMonoid γ] :
    ((l.flatMap f).map k).sum = (l.map (fun x => ((f x).map k).sum)).sum := by
  induction l with
  | nil => simp
  | cons x xs ih => simp [List.flatMap_cons, ih]

theorem sum_map_ite_countP {α : Type} (l : List α) (p : α → Prop)
    [DecidablePred p] :
    (l.map (fun x => if p x then (1 : Nat) else 0)).sum =
      l.countP (fun x => decide (p x)) := by
  induction l with
  | nil => simp
  | cons x xs ih =>
    by_cases hx : p x <;> simp [List.countP_cons, hx, ih, Nat.add_comm]

/-- A record set in which one record lists the same genre twice. -/
def exampleDupGenre : List TMovie := [{ genres := ["A", "A"], year := 2000 }]

/-- C3 counterexample: on a record whose genre list repeats a label, the
double loop also hits the diagonal, so `matrix[g][g]` (= 4 here) exceeds the
total number of occurrences of `g` (= 2); the claim's diagonal description
fails on this record set. -/
theorem c3_duplicate_genre_counterexample :
    ¬ coMatrix exampleDupGenre "A" "A" = genreTotal exampleDupGenre "A" := by
  decide

/-- C3 (amended to duplicate-free genre lists): when every record's genre
list has no duplicate labels, a diagonal entry of the heatmap matrix equals
the total number of occurrences of that genre, and an off-diagonal entry
(distinct genres) equals the number of records carrying both genres. -/
theorem c3_heatmap_matrix_entries (movies : List TMovie) (g h : String)
    (hnd : ∀ m ∈ movies, m.genres.Nodup)
    (hg : g ∈ heatGenres movies) (hh : h ∈ heatGenres movies) :
    coMatrix movies g g = genreTotal movies g ∧
    (g ≠ h → coMatrix movies g h =
      movies.countP (fun m => g ∈ m.genres ∧ h ∈ m.genres)) := by
  constructor
  · have hzero : pairIncrements movies g g = 0 := by
      apply List.sum_eq_zero
      intro v hv
      obtain ⟨p, hp, rfl⟩ := List.mem_map.1 hv
      obtain ⟨m, hm, hpm⟩ := List.mem_flatMap.1 hp
      have hne := ordPairs_ne m.genres (hnd m hm) p hpm
      have : ¬ p = (g, g) := by
        intro hpe
        apply hne
        rw [hpe]
      simp [this]
    unfold coMatrix
    rw [if_pos ⟨hg, hg⟩, if_pos rfl, hzero, Nat.add_zero]
  · intro hgh
    have e1 : coMatrix movies g h =
        (if g = h then genreTotal movies g else 0) + pairIncrements movies g h := by
      unfold coMatrix
      exact if_pos ⟨hg, hh⟩
    rw [e1, if_neg hgh, Nat.zero_add]
    unfold pairIncrements
    rw [sum_map_flatMap]
    have hmap : (movies.map (fun m => ((ordPairs m.genres).map
        (fun p => (if p = (g, h) then (1 : Nat) else 0) +
                  (if p = (h, g) then 1 else 0))).sum)) =
        movies.map (fun m => if g ∈ m.genres ∧ h ∈ m.genres then 1 else 0) := by
      refine List.map_congr_left ?_
      intro m hm
      exact ordPairs_sum_offdiag g h hgh m.genres (hnd m hm)
    rw [hmap, sum_map_ite_countP]

/-- C3 witness: the amended statement at the two-record example, where
the diagonal gives Action's total (2) and the off-diagonal cell gives the
number of records carrying both Action and Comedy (1). -/
theorem c3_heatmap_matrix_entries_witness :
    (∀ m ∈ exampleTwo, m.genres.Nodup) ∧
    "Action" ∈ heatGenres exampleTwo ∧ "Comedy" ∈ heatGenres exampleTwo ∧
    coMatrix exampleTwo "Action" "Action" = genreTotal exampleTwo "Action" ∧
    ("Action" ≠ "Comedy" → coMatrix exampleTwo "Action" "Comedy" =
      exampleTwo.countP (fun m => "Action" ∈ m.genres ∧ "Comedy" ∈ m.genres)) :=
  ⟨by decide, by decide, by decide,
    (c3_heatmap_matrix_entries exampleTwo "Action" "Comedy" (by decide)
      (by decide) (by decide)).1,
    (c3_heatmap_matrix_entries exampleTwo "Action" "Comedy" (by decide)
      (by decide) (by decide)).2⟩

/-! ### Ranked-line trajectories (`RankedLine.svelte`) -/

/-- The distinct genres of the record set in first-appearance order
(the `Set` filled by nested `forEach` in `RankedLine.svelte`). -/
def ranGenres (movies : List TMovie) : List String :=
  dedupFirst (movies.flatMap (fun m => m.genres))

/-- The years of `processedData.yearData`: the distinct years of the
records (`d3.group` keys in first-appearance order) sorted ascending
(`.sort((a, b) => a.year - b.year)`). -/
def ranYears (movies : List TMovie) : List Int :=
  List.insertionSort (fun a b => a ≤ b) (dedupFirst (movies.map (fun m => m.year)))

/-- One year's `top3`: that year's genre tally sorted by descending count,
cut to the first three entries (`sorted.slice(0, 3)`); the rank of an entry
is its position + 1. -/
def yearTop3 (movies : List TMovie) (y : Int) : List (String × Nat) :=
  (sortByCountDesc (rollupCounts (yearLabels movies y))).take 3

/-- Embedding of `processedData.yearData`: per chronological year, its top-3 ranking. -/
def yearData (movies : List TMovie) : List (Int × List (String × Nat)) :=
  (ranYears movies).map (fun y => (y, yearTop3 movies y))

/-- The score a year's ranking awards to a genre: `4 - entry.rank` for the
first `top3` entry naming the genre (rank 1 → +3, rank 2 → +2,
rank 3 → +1), 0 when the genre is not in the top 3. -/
def awardOf (top3 : List (String × Nat)) (g : String) : Nat :=
  match top3.findIdx? (fun e => e.1 == g) with
  | some i => 3 - i
  | none => 0

/-- The cumulative-score walk over the chronological year entries,
mirroring the `forEach` with its mutable `cumulative` accumulator. -/
def trajFrom (g : String) (cum : Nat) :
    List (Int × List (String × Nat)) → List (Int × Nat)
  | [] => []
  | yd :: rest =>
    (yd.1, cum + awardOf yd.2 g) :: trajFrom g (cum + awardOf yd.2 g) rest

/-- One genre's trajectory (`genreTrajectories[idx]` for `genres[idx]`,
starting from cumulative 0). -/
def trajectory (movies : List TMovie) (g : String) : List (Int × Nat) :=
  trajFrom g 0 (yearData movies)

theorem trajFrom_length (g : String) :
    ∀ (l : List (Int × List (String × Nat))) (cum : Nat),
      (trajFrom g cum l).length = l.length := by
  intro l
  induction l with
  | nil => intro cum; rfl
  | cons yd rest ih => intro cum; simp [trajFrom, ih]

theorem trajFrom_get (g : String) :
    ∀ (l : List (Int × List (String × Nat))) (cum : Nat) (i : Nat)
      (hi : i < l.length) (hi2 : i < (trajFrom g cum l).length),
      (trajFrom g cum l).get ⟨i, hi2⟩ =
        ((l.get ⟨i, hi⟩).1,
         cum + ((l.take (i + 1)).map (fun yd => awardOf yd.2 g)).sum) := by
  intro l
  induction l with
  | nil => intro cum i hi _; exact absurd hi (by simp)
  | cons yd rest ih =>
    intro cum i hi hi2
    cases i with
    | zero => simp [trajFrom]
    | succ j =>
      have hj : j < rest.length := by simpa using hi
      have hj2 : j < (trajFrom g (cum + awardOf yd.2 g) rest).length := by
        rw [trajFrom_length]; exact hj
      have := ih (cum + awardOf yd.2 g) j hj hj2
      simp only [trajFrom, List.get_cons_succ, this, List.take_succ_cons,
        List.map_cons, List.sum_cons]
      exact congrArg _ (by omega)

/-- C1: for every record set and genre, `yearData` lists the years present
in the data in chronological order, each year's `top3` is ranked by
non-increasing occurrence count, and each trajectory point carries the sum
of the genre's rank awards (+3/+2/+1 for ranks 1/2/3, +0 otherwise) over
all years up to and including that point's year. -/
theorem c1_ranked_line_trajectory (movies : List TMovie) (g : String) :
    ((ranYears movies).Pairwise (fun a b => a ≤ b) ∧
     (∀ y : Int, y ∈ ranYears movies ↔ y ∈ movies.map (fun m => m.year)) ∧
     (∀ yd ∈ yearData movies, yd.2.Pairwise (fun a b => b.2 ≤ a.2))) ∧
    (trajectory movies g).length = (yearData movies).length ∧
    (∀ (i : Nat) (hi : i < (yearData movies).length)
       (hi2 : i < (trajectory movies g).length),
      (trajectory movies g).get ⟨i, hi2⟩ =
        (((yearData movies).get ⟨i, hi⟩).1,
         (((yearData movies).take (i + 1)).map (fun yd => awardOf yd.2 g)).sum)) := by
  refine ⟨⟨?_, ?_, ?_⟩, trajFrom_length g _ 0, ?_⟩
  · exact List.sorted_insertionSort _ _
  · intro y
    unfold ranYears
    rw [(List.perm_insertionSort _ _).mem_iff, mem_dedupFirst]
  · intro yd hyd
    obtain ⟨y, _, rfl⟩ := List.mem_map.1 hyd
    exact (sortByCountDesc_sorted _).sublist (List.take_sublist _ _)
  · intro i hi hi2
    simpa using trajFrom_get g (yearData movies) 0 i hi hi2

/-- A three-record, two-year record set used to exercise the trajectories. -/
def exampleTraj : List TMovie :=
  [{ genres := ["Action", "Comedy"], year := 2000 },
   { genres := ["Action"], year := 2001 }]

/-- C1 witness: the trajectory equation instantiated at `exampleTraj`,
genre Action, second year (index 1): Action is rank 1 in both years, so the
cumulative value is 3 + 3 = 6. -/
theorem c1_ranked_line_trajectory_witness :
    (trajectory exampleTraj "Action").get ⟨1, by decide⟩ =
      (((yearData exampleTraj).get ⟨1, by decide⟩).1,
       (((yearData exampleTraj).take 2).map (fun yd => awardOf yd.2 "Action")).sum) ∧
    (trajectory exampleTraj "Action").get ⟨1, by decide⟩ = (2001, 6) :=
  ⟨(c1_ranked_line_trajectory exampleTraj "Action").2.2 1 (by decide) (by decide),
   by decide⟩

/-- C9: each genre's cumulative trajectory is monotonically non-decreasing
across the chronologically ordered years. -/
theorem c9_trajectory_monotone (movies : List TMovie) (g : String) (i : Nat)
    (hi : i < (trajectory movies g).length)
    (hi1 : i + 1 < (trajectory movies g).length) :
    ((trajectory movies g).get ⟨i, hi⟩).2 ≤
      ((trajectory movies g).get ⟨i + 1, hi1⟩).2 := by
  have hlen : (trajectory movies g).length = (yearData movies).length :=
    trajFrom_length g _ 0
  have hyi : i < (yearData movies).length := hlen ▸ hi
  have hyi1 : i + 1 < (yearData movies).length := hlen ▸ hi1
  have e1 := trajFrom_get g (yearData movies) 0 i hyi hi
  have e2 := trajFrom_get g (yearData movies) 0 (i + 1) hyi1 hi1
  show ((trajFrom g 0 (yearData movies)).get ⟨i, hi⟩).2 ≤
    ((trajFrom g 0 (yearData movies)).get ⟨i + 1, hi1⟩).2
  rw [e1, e2]
  simp only [Nat.zero_add]
  have hsum := List.sum_take_succ
    ((yearData movies).map (fun yd => awardOf yd.2 g)) (i + 1)
    (by simpa using hyi1)
  rw [← List.map_take, ← List.map_take] at hsum
  rw [hsum]
  exact Nat.le_add_right _ _

/-- C9 witness: on `exampleTraj`, Action's cumulative value rises from 3
(index 0) to 6 (index 1). -/
theorem c9_trajectory_monotone_witness :
    ((trajectory exampleTraj "Action").get ⟨0, by decide⟩).2 ≤
      ((trajectory exampleTraj "Action").get ⟨1, by decide⟩).2 :=
  c9_trajectory_monotone exampleTraj "Action" 0 (by decide) (by decide)

/-! ### Ranked bar chart transitions (`RankBar.svelte`)

The d3 join in `draw` binds the ranked data to the existing bar groups
keyed by genre (`.data(data, d => d.genre)`), producing the enter, update
and exit selections. Each selection then schedules transitions at the same
instant; a transition's start time is therefore its delay. The code uses:
update transitions `.duration(600)` with the default delay 0, enter
transitions `.delay(600).duration(400)`, exit transitions
`.duration(300)`. -/

/-- Join phase of one keyed bar group in a `draw` pass. -/
inductive Phase where
  | entering
  | updating
  | exiting
deriving Repr, DecidableEq

/-- One scheduled transition of a `draw` pass: bar key, join phase, delay
and duration in milliseconds (delay relative to the shared scheduling
instant of the pass). -/
structure Sched where
  key : String
  phase : Phase
  delay : Nat
  duration : Nat
deriving Repr, DecidableEq

/-- Embedding of `ranked`: the incoming data re-sorted by descending count before the
join. -/
def rankBarRanked (data : List (String × Nat)) : List (String × Nat) :=
  sortByCountDesc data

/-- The keys the join binds (`d => d.genre`). -/
def keysOf (data : List (String × Nat)) : List String := data.map Prod.fst

/-- Enter-selection keys: keys of the new data with no previously rendered
element. -/
def enterKeys (oldKeys : List String) (data : List (String × Nat)) : List String :=
  (keysOf (rankBarRanked data)).filter (fun k => ¬ k ∈ oldKeys)

/-- Update-selection keys: keys present in both the old and new data. -/
def updateKeys (oldKeys : List String) (data : List (String × Nat)) : List String :=
  (keysOf (rankBarRanked data)).filter (fun k => k ∈ oldKeys)

/-- Exit-selection keys: previously rendered keys absent from the new
data. -/
def exitKeys (oldKeys : List String) (data : List (String × Nat)) : List String :=
  oldKeys.filter (fun k => ¬ k ∈ keysOf (rankBarRanked data))

/-- The transitions one `draw` pass schedules: update bars animate with
duration 600 and no delay, entering bars with delay 600 and duration 400,
exiting bars fade with duration 300 and no delay. -/
def drawSchedule (oldKeys : List String) (data : List (String × Nat)) : List Sched :=
  ((updateKeys oldKeys data).map (fun k => ⟨k, Phase.updating, 0, 600⟩)) ++
  ((enterKeys oldKeys data).map (fun k => ⟨k, Phase.entering, 600, 400⟩)) ++
  ((exitKeys oldKeys data).map (fun k => ⟨k, Phase.exiting, 0, 300⟩))

/-- C6: the entering bars are exactly the keys present in the new data but
not previously rendered; update transitions start immediately (delay 0,
duration 600); enter transitions carry delay 600; hence every enter
transition starts no earlier than the instant every update transition
finishes. -/
theorem c6_rankbar_enter_after_update (oldKeys : List String)
    (data : List (String × Nat)) :
    (∀ k, k ∈ enterKeys oldKeys data ↔ (k ∈ keysOf data ∧ ¬ k ∈ oldKeys)) ∧
    (∀ s ∈ drawSchedule oldKeys data, s.phase = Phase.updating →
      s.delay = 0 ∧ s.duration = 600) ∧
    (∀ s ∈ drawSchedule oldKeys data, s.phase = Phase.entering →
      s.delay = 600 ∧ s.duration = 400) ∧
    (∀ su ∈ drawSchedule oldKeys data, ∀ se ∈ drawSchedule oldKeys data,
      su.phase = Phase.updating → se.phase = Phase.entering →
        su.delay + su.duration ≤ se.delay) := by
  have hkeys : ∀ k, k ∈ keysOf (rankBarRanked data) ↔ k ∈ keysOf data := by
    intro k
    exact ((sortByCountDesc_perm data).map Prod.fst).mem_iff
  have hphase : ∀ s ∈ drawSchedule oldKeys data,
      (s.phase = Phase.updating → s.delay = 0 ∧ s.duration = 600) ∧
      (s.phase = Phase.entering → s.delay = 600 ∧ s.duration = 400) := by
    intro s hs
    rcases List.mem_append.1 hs with hs | hs
    · rcases List.mem_append.1 hs with hs | hs
      · obtain ⟨k, _, rfl⟩ := List.mem_map.1 hs
        exact ⟨fun _ => ⟨rfl, rfl⟩, fun hc => nomatch hc⟩
      · obtain ⟨k, _, rfl⟩ := List.mem_map.1 hs
        exact ⟨(fun hc => nomatch hc), fun _ => ⟨rfl, rfl⟩⟩
    · obtain ⟨k, _, rfl⟩ := List.mem_map.1 hs
      exact ⟨(fun hc => nomatch hc), fun hc => nomatch hc⟩
  refine ⟨?_, fun s hs => (hphase s hs).1, fun s hs => (hphase s hs).2, ?_⟩
  · intro k
    rw [enterKeys, List.mem_filter]
    simp [hkeys k]
  · intro su hsu se hse hu he
    obtain ⟨hd1, hd2⟩ := (hphase su hsu).1 hu
    obtain ⟨hd3, _⟩ := (hphase se hse).2 he
    omega

/-- C6 witness: going from rendered keys `[A, B]` to data
`[(A,5), (B,10), (C,1)]`, C is the only entering key, and the concrete
update transition of A ends (0 + 600) no later than C's enter transition
starts (600). -/
theorem c6_rankbar_enter_after_update_witness :
    enterKeys ["A", "B"] [("A", 5), ("B", 10), ("C", 1)] = ["C"] ∧
    (("C" ∈ enterKeys ["A", "B"] [("A", 5), ("B", 10), ("C", 1)]) ↔
      ("C" ∈ keysOf [("A", 5), ("B", 10), ("C", 1)] ∧ ¬ "C" ∈ ["A", "B"])) ∧
    (⟨"A", Phase.updating, 0, 600⟩ : Sched).delay +
        (⟨"A", Phase.updating, 0, 600⟩ : Sched).duration ≤
      (⟨"C", Phase.entering, 600, 400⟩ : Sched).delay :=
  ⟨by decide,
   (c6_rankbar_enter_after_update ["A", "B"] [("A", 5), ("B", 10), ("C", 1)]).1 "C",
   (c6_rankbar_enter_after_update ["A", "B"] [("A", 5), ("B", 10), ("C", 1)]).2.2.2
     ⟨"A", Phase.updating, 0, 600⟩ (by decide)
     ⟨"C", Phase.entering, 600, 400⟩ (by decide) rfl rfl⟩

/-! ### Scroll-position tracker (`findVisibleYear` in `Scroll.svelte`)

The code scans all `.step` elements, keeping the one whose vertical
midpoint (`rect.top + rect.height / 2`) is strictly closer to the
viewport's vertical midpoint than the best so far; `closestDistance`
starts at `Infinity`, so the first step always becomes the initial best.
Pixel coordinates are modelled as integers; the scan only subtracts and
compares them. Each step is assumed to carry a parsable `.year` header,
as the claim's scenario does. -/

/-- One `.step` element: its vertical midpoint and its year. -/
structure Step where
  mid : Int
  year : Int
deriving Repr, DecidableEq

/-- Embedding of `Math.abs(stepMiddle - viewportMiddle)`. -/
def stepDistance (vm : Int) (s : Step) : Nat := (s.mid - vm).natAbs

/-- The `forEach` scan with its mutable `closestStep`/`closestDistance`:
a later step replaces the best only on strictly smaller distance. -/
def pickClosest (vm : Int) (best : Step) : List Step → Step
  | [] => best
  | s :: rest =>
    if stepDistance vm s < stepDistance vm best then pickClosest vm s rest
    else pickClosest vm best rest

/-- Embedding of `findVisibleYear`: no steps leave the current year unchanged; otherwise
the first step beats `Infinity` and the scan selects the closest step,
whose year becomes the current year. -/
def findVisibleYear (steps : List Step) (vm : Int) (currentYear : Int) : Int :=
  match steps with
  | [] => currentYear
  | s :: rest => (pickClosest vm s rest).year

/-- The scan invariant: `pickClosest` returns either the initial best —
then no scanned step strictly beats it — or a scanned step that strictly
beats the initial best and all steps before it, and is never beaten. -/
theorem pickClosest_spec (vm : Int) :
    ∀ (l : List Step) (best : Step),
      (pickClosest vm best l = best ∧
        ∀ s ∈ l, stepDistance vm best ≤ stepDistance vm s) ∨
      (∃ i, ∃ hi : i < l.length,
        pickClosest vm best l = l.get ⟨i, hi⟩ ∧
        stepDistance vm (l.get ⟨i, hi⟩) < stepDistance vm best ∧
        (∀ s ∈ l, stepDistance vm (l.get ⟨i, hi⟩) ≤ stepDistance vm s) ∧
        (∀ j, ∀ hj : j < l.length, j < i →
          stepDistance vm (l.get ⟨i, hi⟩) < stepDistance vm (l.get ⟨j, hj⟩))) := by
  intro l
  induction l with
  | nil =>
    intro best
    left
    exact ⟨rfl, fun s hs => absurd hs (List.not_mem_nil s)⟩
  | cons s rest ih =>
    intro best
    by_cases hlt : stepDistance vm s < stepDistance vm best
    · rw [show pickClosest vm best (s :: rest) = pickClosest vm s rest from by
        rw [pickClosest, if_pos hlt]]
      rcases ih s with ⟨heq, hall⟩ | ⟨i, hi, heq, hbeat, hall, hbefore⟩
      · right
        refine ⟨0, by simp, by simpa using heq, hlt, ?_, ?_⟩
        · intro t ht
          rcases List.mem_cons.1 ht with rfl | ht
          · exact le_refl _
          · exact hall t ht
        · intro j hj hj0
          exact absurd hj0 (Nat.not_lt_zero j)
      · right
        refine ⟨i + 1, by simpa using hi, by simpa using heq, ?_, ?_, ?_⟩
        · exact lt_trans hbeat hlt
        · intro t ht
          rcases List.mem_cons.1 ht with rfl | ht
          · exact le_of_lt hbeat
          · exact hall t ht
        · intro j hj hji
          cases j with
          | zero => simpa using hbeat
          | succ j' =>
            have hj' : j' < rest.length := by simpa using hj
            exact hbefore j' hj' (by omega)
    · rw [show pickClosest vm best (s :: rest) = pickClosest vm best rest from by
        rw [pickClosest, if_neg hlt]]
      push_neg at hlt
      rcases ih best with ⟨heq, hall⟩ | ⟨i, hi, heq, hbeat, hall, hbefore⟩
      · left
        refine ⟨heq, ?_⟩
        intro t ht
        rcases List.mem_cons.1 ht with rfl | ht
        · exact hlt
        · exact hall t ht
      · right
        refine ⟨i + 1, by simpa using hi, by simpa using heq, hbeat, ?_, ?_⟩
        · intro t ht
          rcases List.mem_cons.1 ht with rfl | ht
          · exact le_of_lt (lt_of_lt_of_le hbeat hlt)
          · exact hall t ht
        · intro j hj hji
          cases j with
          | zero => exact lt_of_lt_of_le hbeat hlt
          | succ j' =>
            have hj' : j' < rest.length := by simpa using hj
            exact hbefore j' hj' (by omega)

/-- C7: for every non-empty step collection, the tracker sets the current
year to the year of a step whose midpoint distance to the viewport middle
is minimal, and which strictly beats every step before it in document
order (first wins ties). -/
theorem c7_scroll_tracker_nearest (steps : List Step) (vm currentYear : Int)
    (hne : steps ≠ []) :
    ∃ i, ∃ hi : i < steps.length,
      findVisibleYear steps vm currentYear = (steps.get ⟨i, hi⟩).year ∧
      (∀ j, ∀ hj : j < steps.length,
        stepDistance vm (steps.get ⟨i, hi⟩) ≤ stepDistance vm (steps.get ⟨j, hj⟩)) ∧
      (∀ j, ∀ hj : j < steps.length, j < i →
        stepDistance vm (steps.get ⟨i, hi⟩) < stepDistance vm (steps.get ⟨j, hj⟩)) := by
  match steps, hne with
  | s :: rest, _ =>
    rcases pickClosest_spec vm rest s with ⟨heq, hall⟩ | ⟨i, hi, heq, hbeat, hall, hbefore⟩
    · refine ⟨0, by simp, ?_, ?_, ?_⟩
      · show (pickClosest vm s rest).year = _
        rw [heq]
        rfl
      · intro j hj
        cases j with
        | zero => exact le_refl _
        | succ j' =>
          have hj' : j' < rest.length := by simpa using hj
          simpa using hall (rest.get ⟨j', hj'⟩) (rest.get_mem _ _)
      · intro j hj hj0
        exact absurd hj0 (Nat.not_lt_zero j)
    · refine ⟨i + 1, by simpa using hi, ?_, ?_, ?_⟩
      · show (pickClosest vm s rest).year = _
        rw [heq]
        rfl
      · intro j hj
        cases j with
        | zero => exact (le_of_lt (by simpa using hbeat))
        | succ j' =>
          have hj' : j' < rest.length := by simpa using hj
          have := hall (rest.get ⟨j', hj'⟩) (rest.get_mem _ _)
          simpa using this
      · intro j hj hji
        cases j with
        | zero => exact (by simpa using hbeat)
        | succ j' =>
          have hj' : j' < rest.length := by simpa using hj
          have := hbefore j' hj' (by omega)
          simpa using this

/-- The spec scenario's steps: years 1990, 2000, 2010, with the viewport
middle (600) nearest the midpoint of the 2000 step. -/
def exampleSteps : List Step :=
  [{ mid := 100, year := 1990 }, { mid := 580, year := 2000 },
   { mid := 1100, year := 2010 }]

/-- C7 witness: on the scenario's steps the tracker picks year 2000, and
the theorem's minimal-distance step at index 1 is the 2000 step. -/
theorem c7_scroll_tracker_nearest_witness :
    (exampleSteps ≠ [] ∧ findVisibleYear exampleSteps 600 0 = 2000) ∧
    ∃ i, ∃ hi : i < exampleSteps.length,
      findVisibleYear exampleSteps 600 0 = (exampleSteps.get ⟨i, hi⟩).year ∧
      (∀ j, ∀ hj : j < exampleSteps.length,
        stepDistance 600 (exampleSteps.get ⟨i, hi⟩) ≤
          stepDistance 600 (exampleSteps.get ⟨j, hj⟩)) ∧
      (∀ j, ∀ hj : j < exampleSteps.length, j < i →
        stepDistance 600 (exampleSteps.get ⟨i, hi⟩) <
          stepDistance 600 (exampleSteps.get ⟨j, hj⟩)) :=
  ⟨⟨by decide, by decide⟩, c7_scroll_tracker_nearest exampleSteps 600 0 (by decide)⟩

/-! ### 3D bar scene scrolling (`src/routes/A4` page)

`createBars` computes `maxScroll = totalWidth - viewportWidth` with
`totalWidth = sortedGenres.length * barSpacing` (spacing 150) and
`viewportWidth = 1200`. The drag handler does
`scrollOffset -= deltaX * 5` then
`scrollOffset = Math.max(0, Math.min(scrollOffset, maxScroll))`;
ArrowLeft does `scrollOffset = Math.max(0, scrollOffset - 150)`;
ArrowRight does `scrollOffset = Math.min(scrollOffset + 150, maxScroll)`. -/

/-- Embedding of `maxScroll` for a genre→count mapping (an association list; the number
of bars is `Object.keys(movieData).length`). -/
def maxScroll (movieData : List (String × Nat)) : Int :=
  movieData.length * 150 - 1200

/-- One scroll input: a pointer-drag movement (`deltaX` while dragging) or
an arrow key. -/
inductive ScrollEvent where
  | drag (deltaX : Int)
  | arrowLeft
  | arrowRight
deriving Repr, DecidableEq

/-- The handlers' update of `scrollOffset`. -/
def scrollStep (ms : Int) (offset : Int) : ScrollEvent → Int
  | ScrollEvent.drag dx => max 0 (min (offset - dx * 5) ms)
  | ScrollEvent.arrowLeft => max 0 (offset - 150)
  | ScrollEvent.arrowRight => min (offset + 150) ms

/-- Value of `scrollOffset` after a sequence of input events, starting from 0. -/
def runScroll (ms : Int) (events : List ScrollEvent) : Int :=
  events.foldl (scrollStep ms) 0

theorem scrollStep_bounds (ms offset : Int) (e : ScrollEvent)
    (hms : 0 ≤ ms) (h0 : 0 ≤ offset) (h1 : offset ≤ ms) :
    0 ≤ scrollStep ms offset e ∧ scrollStep ms offset e ≤ ms := by
  cases e with
  | drag dx =>
    constructor
    · exact le_max_left 0 _
    · exact max_le hms (min_le_right _ _)
  | arrowLeft =>
    constructor
    · exact le_max_left 0 _
    · exact max_le hms (by omega)
  | arrowRight =>
    constructor
    · exact le_min (by omega) hms
    · exact min_le_right _ _

theorem foldl_scrollStep_bounds (ms : Int) (hms : 0 ≤ ms) :
    ∀ (events : List ScrollEvent) (offset : Int),
      0 ≤ offset → offset ≤ ms →
      0 ≤ events.foldl (scrollStep ms) offset ∧
        events.foldl (scrollStep ms) offset ≤ ms := by
  intro events
  induction events with
  | nil => intro offset h0 h1; exact ⟨h0, h1⟩
  | cons e rest ih =>
    intro offset h0 h1
    obtain ⟨h0', h1'⟩ := scrollStep_bounds ms offset e hms h0 h1
    exact ih (scrollStep ms offset e) h0' h1'

/-- C8 counterexample: with a single-genre mapping, `maxScroll` is
`150 − 1200 = −1050`; one ArrowRight press sets
`scrollOffset = min(150, −1050) = −1050`, violating `0 ≤ scrollOffset`,
so the claimed invariant does not hold for every category→count mapping. -/
theorem c8_negative_maxscroll_counterexample :
    ¬ (0 ≤ runScroll (maxScroll [("Action", 25)]) [ScrollEvent.arrowRight] ∧
       runScroll (maxScroll [("Action", 25)]) [ScrollEvent.arrowRight] ≤
         maxScroll [("Action", 25)]) := by
  decide

/-- C8 (amended to non-negative `maxScroll`, i.e. at least 8 bars so the
content is at least as wide as the viewport): starting from offset 0,
every sequence of pointer-drag and arrow-key updates keeps
`scrollOffset` within `[0, maxScroll]`. -/
theorem c8_scroll_offset_clamped (movieData : List (String × Nat))
    (events : List ScrollEvent) (hms : 0 ≤ maxScroll movieData) :
    0 ≤ runScroll (maxScroll movieData) events ∧
      runScroll (maxScroll movieData) events ≤ maxScroll movieData :=
  foldl_scrollStep_bounds (maxScroll movieData) hms events 0 le_rfl hms

/-- An eight-genre mapping: `maxScroll = 8 · 150 − 1200 = 0`. -/
def exampleBars : List (String × Nat) :=
  [("Action", 25), ("Comedy", 18), ("Drama", 15), ("Horror", 12),
   ("Sci-Fi", 20), ("Animation", 10), ("Romance", 9), ("Thriller", 8)]

/-- C8 witness: with eight bars the offset stays in `[0, maxScroll]` after
a drag and both arrow keys. -/
theorem c8_scroll_offset_clamped_witness :
    0 ≤ maxScroll exampleBars ∧
    (0 ≤ runScroll (maxScroll exampleBars)
        [ScrollEvent.arrowRight, ScrollEvent.drag (-2), ScrollEvent.arrowLeft] ∧
     runScroll (maxScroll exampleBars)
        [ScrollEvent.arrowRight, ScrollEvent.drag (-2), ScrollEvent.arrowLeft] ≤
       maxScroll exampleBars) :=
  ⟨by decide,
   c8_scroll_offset_clamped exampleBars
     [ScrollEvent.arrowRight, ScrollEvent.drag (-2), ScrollEvent.arrowLeft]
     (by decide)⟩

end MovieVis
